import Mathlib

/-!
Shallow embedding of the `dcf-tool` core (`src/app.py`): the statement
extractor (`parse_table`), the "latest value" policy (`latest_value`),
input derivation (`build_dcf_inputs`) and the FCFF DCF engine (`run_dcf`).

Modelling conventions:
* Python floats are modelled by `ℚ`; `round(x, n)` is modelled by
  round-half-to-even on rationals (`pyRound`).
* Python `dict` (insertion-ordered, unique keys, assignment overwrites the
  value but keeps the key's original position) is modelled by association
  lists `List (String × α)` built only through `pyInsert` / `pyDict`.
* `float(str)` is modelled by `pyFloat`, a parser for optionally signed
  decimal literals with optional fraction and exponent; exotic forms such
  as "inf"/"nan" are treated as unparseable.  A failed parse is `none`
  (Python raises `ValueError`); callers recover exactly where the source
  has `try/except`.
* BeautifulSoup navigation is modelled by a concrete document tree:
  a `Document` holds sections (with an id), a section holds tables, a
  table holds rows, a row holds cells tagged `th`/`td`.
-/

set_option allowUnsafeReducibility true in
attribute [semireducible] Rat.add Rat.sub Rat.mul Rat.inv Rat.ofScientific

namespace DcfTool

/-! ### Python primitives: strip, comma removal, round, float parsing -/

/-- Model of Python `str.strip()`: drop whitespace at both ends. -/
def pyStrip (s : String) : String :=
  ⟨((s.data.dropWhile Char.isWhitespace).reverse.dropWhile Char.isWhitespace).reverse⟩

/-- Model of `str.replace(",", "")`: remove every comma. -/
def stripCommas (s : String) : String :=
  ⟨s.data.filter (fun ch => decide (ch ≠ ','))⟩

/-- Model of Python `round` to an integer: round half to even (banker's
rounding), which is what Python's `round` does on exact ties. -/
def pyRound (q : ℚ) : ℤ :=
  if q - ⌊q⌋ = 1 / 2 then (if 2 ∣ ⌊q⌋ then ⌊q⌋ else ⌊q⌋ + 1) else round q

/-- Model of Python `round(x, 2)`. -/
def round2 (q : ℚ) : ℚ := (pyRound (q * 100) : ℚ) / 100

/-- Model of Python `round(x, 4)`. -/
def round4 (q : ℚ) : ℚ := (pyRound (q * 10000) : ℚ) / 10000

/-- Digit run to a natural number (most significant digit first). -/
def digitsToNat (l : List Char) : ℕ :=
  l.foldl (fun n c => 10 * n + (c.toNat - 48)) 0

/-- Exponent part of a float literal: an optional sign followed by a
non-empty digit run that must consume the whole remainder. -/
def pyFloatExp (sign mant : ℚ) (rest : List Char) : Option ℚ :=
  let es : ℤ × List Char :=
    match rest with
    | '-' :: r => (-1, r)
    | '+' :: r => (1, r)
    | _ => (1, rest)
  let ed := es.2.takeWhile Char.isDigit
  let rest2 := es.2.dropWhile Char.isDigit
  if ed = [] ∨ rest2 ≠ [] then none
  else some (sign * mant * (10 : ℚ) ^ (es.1 * (digitsToNat ed : ℤ)))

/-- Model of Python `float(str)` on finite decimal literals: optional
surrounding whitespace, optional sign, digits with an optional fractional
part (at least one digit overall), optional `e`/`E` exponent. -/
def pyFloat (s : String) : Option ℚ :=
  let cs := (pyStrip s).data
  let sc : ℚ × List Char :=
    match cs with
    | '-' :: rest => (-1, rest)
    | '+' :: rest => (1, rest)
    | _ => (1, cs)
  let ip := sc.2.takeWhile Char.isDigit
  let cs2 := sc.2.dropWhile Char.isDigit
  let fc : List Char × List Char :=
    match cs2 with
    | '.' :: rest => (rest.takeWhile Char.isDigit, rest.dropWhile Char.isDigit)
    | _ => ([], cs2)
  if ip = [] ∧ fc.1 = [] then none
  else
    let mant : ℚ := (digitsToNat ip : ℚ) + (digitsToNat fc.1 : ℚ) / (10 : ℚ) ^ fc.1.length
    match fc.2 with
    | [] => some (sc.1 * mant)
    | 'e' :: rest => pyFloatExp sc.1 mant rest
    | 'E' :: rest => pyFloatExp sc.1 mant rest
    | _ => none

/-! ### Python dict model -/

/-- Model of Python dict assignment `d[k] = v`: if the key is present its
value is updated in place (insertion position preserved), otherwise the
pair is appended at the end. -/
def pyInsert {α : Type} (d : List (String × α)) (k : String) (v : α) :
    List (String × α) :=
  if k ∈ d.map Prod.fst then d.map (fun p => if p.1 = k then (k, v) else p)
  else d ++ [(k, v)]

/-- Model of `dict(pairs)`: successive assignment of each pair. -/
def pyDict {α : Type} (l : List (String × α)) : List (String × α) :=
  l.foldl (fun d p => pyInsert d p.1 p.2) []

/-- Model of dict lookup `d[k]` / `k in d`: the value at the (unique)
matching key, if any. -/
def pyLookup {α : Type} (d : List (String × α)) (k : String) : Option α :=
  (d.find? (fun p => decide (p.1 = k))).map Prod.snd

/-- A `LineItemSeries`: period label to numeric value, in insertion order. -/
abbrev Series := List (String × ℚ)

/-- A `StatementTable`: line-item label to its series, in insertion order. -/
abbrev StatementTable := List (String × Series)

/-- Model of `table.get(key, {})` on a statement table. -/
def dictGetD (t : StatementTable) (k : String) : Series :=
  (pyLookup t k).getD []

/-! ### Document model (BeautifulSoup navigation) -/

/-- HTML cell tag: header (`th`) or data (`td`). -/
inductive CellTag : Type
  | th : CellTag
  | td : CellTag
deriving DecidableEq

/-- A table cell: its tag and its (raw) text content. -/
structure Cell : Type where
  tag : CellTag
  text : String
deriving DecidableEq

/-- Whether a cell is a `th` cell (`find_all("th")`). -/
def Cell.isTh (c : Cell) : Bool :=
  match c.tag with
  | CellTag.th => true
  | CellTag.td => false

/-- A table row (`tr`): its cells in order (`find_all(["td", "th"])`). -/
structure TableRow : Type where
  cells : List Cell
deriving DecidableEq

/-- A table: its rows in order (`find_all("tr")`). -/
structure HTable : Type where
  rows : List TableRow
deriving DecidableEq

/-- A document section with its id attribute and its tables in order. -/
structure HSection : Type where
  id : String
  tables : List HTable
deriving DecidableEq

/-- A parsed document: its sections in order. -/
structure Document : Type where
  sections : List HSection
deriving DecidableEq

/-- Model of `soup.find("section", {"id": section_id})`. -/
def findSection (soup : Document) (section_id : String) : Option HSection :=
  soup.sections.find? (fun s => decide (s.id = section_id))

/-! ### Statement extractor (`parse_table`, lines 46-83) -/

/-- One data cell's numeric value (lines 74-79): strip, remove commas,
`float(...)`, and `0.0` on a parse failure (`except: values.append(0.0)`). -/
def parseCell (c : Cell) : ℚ :=
  match pyFloat (stripCommas (pyStrip c.text)) with
  | some x => x
  | none => 0

/-- One data row's contribution (lines 66-81): `continue` (i.e. `none`)
when the row has fewer than 2 cells, otherwise the stripped first cell as
key and `dict(zip(headers, values))` as series. -/
def rowEntry? (headers : List String) (row : TableRow) : Option (String × Series) :=
  match row.cells with
  | c0 :: c1 :: cs =>
      some (pyStrip c0.text, pyDict (headers.zip ((c1 :: cs).map parseCell)))
  | _ => none

/-- `parse_table(soup, section_id)` (lines 46-83). -/
def parse_table (soup : Document) (section_id : String) : StatementTable :=
  match findSection soup section_id with
  | none => []
  | some sec =>
    match sec.tables.head? with
    | none => []
    | some table =>
      match table.rows with
      | [] => []
      | [_] => []
      | r0 :: rest =>
        let header_cells := r0.cells.filter Cell.isTh
        if header_cells.length < 2 then []
        else
          let headers := (header_cells.map (fun th => pyStrip th.text)).drop 1
          rest.foldl (fun data row =>
            match rowEntry? headers row with
            | some kv => pyInsert data kv.1 kv.2
            | none => data) []

/-! ### Latest-value policy (`latest_value`, lines 85-90) -/

/-- `latest_value(row)`: `0` on the empty series, the `"TTM"` value when
that key is present, otherwise the last value in insertion order. -/
def latest_value (row : Series) : ℚ :=
  match row with
  | [] => 0
  | _ =>
    match pyLookup row "TTM" with
    | some v => v
    | none => (row.map Prod.snd).getLastD 0

/-! ### Input derivation (`build_dcf_inputs`, lines 94-146) -/

/-- Model of `s[years[-1]]` with `years = list(s.keys())`: look up the
last key in insertion order (`getD` defaults are dead code for the series
the program builds: the key list is that of `s` itself). -/
def lastVal (s : Series) : ℚ :=
  (pyLookup s ((s.map Prod.fst).getLastD "")).getD 0

/-- Model of `s[years[-2]]`: look up the second-to-last key. -/
def prevVal (s : Series) : ℚ :=
  (pyLookup s (((s.map Prod.fst).dropLast).getLastD "")).getD 0

/-- Capex (lines 106-112): delta of "Fixed Assets +" plus depreciation
when at least 2 periods exist, else depreciation alone. -/
def capexOf (bs : StatementTable) (depreciation : ℚ) : ℚ :=
  let fa := dictGetD bs "Fixed Assets +"
  if 2 ≤ fa.length then lastVal fa - prevVal fa + depreciation
  else depreciation

/-- `capex_pct` before rounding (line 114): `capex / revenue if revenue
else 0`. -/
def capexPctOf (bs : StatementTable) (depreciation revenue : ℚ) : ℚ :=
  if revenue ≠ 0 then capexOf bs depreciation / revenue else 0

/-- `nwc_pct` before rounding (lines 116-129). -/
def nwcPctOf (bs : StatementTable) (revenue : ℚ) : ℚ :=
  let oa := dictGetD bs "Other Assets +"
  let ol := dictGetD bs "Other Liabilities +"
  if 2 ≤ oa.length ∧ 2 ≤ ol.length then
    let delta_nwc := (lastVal oa - prevVal oa) - (lastVal ol - prevVal ol)
    if revenue ≠ 0 then delta_nwc / revenue else 0
  else 0

/-- The normalized DCF assumptions returned by `build_dcf_inputs`. -/
structure DCFInputs : Type where
  revenue : ℚ
  ebit_margin : ℚ
  tax_rate : ℚ
  capex_pct : ℚ
  nwc_pct : ℚ
  net_debt : ℚ
deriving DecidableEq

/-- `build_dcf_inputs(pl, bs, cf)` (lines 94-146). -/
def build_dcf_inputs (pl bs _cf : StatementTable) : DCFInputs :=
  let revenue := latest_value (dictGetD pl "Sales +")
  let ebit := latest_value (dictGetD pl "Operating Profit")
  let depreciation := latest_value (dictGetD pl "Depreciation")
  let pbt := latest_value (dictGetD pl "Profit before tax")
  let pat := latest_value (dictGetD pl "Net Profit +")
  let tax_paid := pbt - pat
  let tax_rate := if 0 < pbt then tax_paid / pbt else 1 / 4
  let capex_pct := capexPctOf bs depreciation revenue
  let nwc_pct := nwcPctOf bs revenue
  let borrowings := latest_value (dictGetD bs "Borrowings +")
  let cash := latest_value (dictGetD bs "Investments")
  let net_debt := borrowings - cash
  let ebit_margin := if revenue ≠ 0 then ebit / revenue else 0
  { revenue := revenue
    ebit_margin := round4 ebit_margin
    tax_rate := round4 tax_rate
    capex_pct := round4 capex_pct
    nwc_pct := round4 nwc_pct
    net_debt := net_debt }

/-! ### DCF engine (`run_dcf`, lines 196-236) -/

/-- The request payload of `run_dcf`. -/
structure DCFPayload : Type where
  revenue : ℚ
  growth : List ℚ
  ebit_margin : ℚ
  tax_rate : ℚ
  capex_pct : ℚ
  nwc_pct : ℚ
  wacc : ℚ
  terminal_growth : ℚ
  net_debt : ℚ
  shares : ℚ
deriving DecidableEq

/-- The response of `run_dcf`. -/
structure DCFResult : Type where
  enterprise_value : ℚ
  equity_value : ℚ
  fair_value_per_share : ℚ
deriving DecidableEq

/-- The FCFF forecast loop (lines 209-219): revenue compounds through the
growth path; each period contributes `nopat - capex - nwc`. -/
def fcffLoop (em tax cp np : ℚ) : ℚ → List ℚ → List ℚ
  | _, [] => []
  | rev, g :: gs =>
    let rev1 := rev * (1 + g)
    let ebit := rev1 * em
    let nopat := ebit * (1 - tax)
    let capex := rev1 * cp
    let nwc := rev1 * np
    (nopat - capex - nwc) :: fcffLoop em tax cp np rev1 gs

/-- The revenue after compounding through a prefix of the growth path:
the value of the loop variable `rev` entering the remaining iterations. -/
def revAfter (rev : ℚ) (xs : List ℚ) : ℚ :=
  xs.foldl (fun r g => r * (1 + g)) rev

/-- The discounting loop (lines 223-225): `ev += f / (1+wacc)^(i+1)`,
starting at index `i`. -/
def dsumFrom (wacc : ℚ) : ℕ → List ℚ → ℚ
  | _, [] => 0
  | i, f :: fs => f / (1 + wacc) ^ (i + 1) + dsumFrom wacc (i + 1) fs

/-- The unrounded enterprise value of `run_dcf` (lines 209-227): sum of
discounted FCFFs plus the discounted Gordon-growth terminal value. -/
def ev_raw (p : DCFPayload) : ℚ :=
  let fcffs := fcffLoop p.ebit_margin p.tax_rate p.capex_pct p.nwc_pct p.revenue p.growth
  let tv := fcffs.getLastD 0 * (1 + p.terminal_growth) / (p.wacc - p.terminal_growth)
  dsumFrom p.wacc 0 fcffs + tv / (1 + p.wacc) ^ fcffs.length

/-- `run_dcf(payload)` (lines 196-236).  `fcffs[-1]` raises `IndexError`
on an empty growth path, modelled by `none`. -/
def run_dcf (p : DCFPayload) : Option DCFResult :=
  if p.growth = [] then none
  else
    let ev := ev_raw p
    let equity := ev - p.net_debt
    let fair_value := equity / p.shares
    some { enterprise_value := round2 ev
           equity_value := round2 equity
           fair_value_per_share := round2 fair_value }

/-! ### Association-list (Python dict) lemmas -/

theorem lookup_of_mem_nodup {α : Type} (s : List (String × α)) (k : String) (v : α)
    (hnd : (s.map Prod.fst).Nodup) (hm : (k, v) ∈ s) : pyLookup s k = some v := by
  induction s with
  | nil => cases hm
  | cons p t ih =>
    simp only [List.map_cons, List.nodup_cons] at hnd
    rcases List.mem_cons.1 hm with h | h
    · subst h
      simp [pyLookup, List.find?]
    · have hne : p.1 ≠ k := by
        intro he
        exact hnd.1 (he ▸ List.mem_map_of_mem Prod.fst h)
      rw [pyLookup, List.find?_cons_of_neg _ (by simp [hne])]
      exact ih hnd.2 h

theorem lookup_eq_none_of_not_mem {α : Type} (s : List (String × α)) (k : String)
    (h : k ∉ s.map Prod.fst) : pyLookup s k = none := by
  simp only [pyLookup, Option.map_eq_none', List.find?_eq_none, decide_eq_true_eq]
  intro p hp he
  exact h (he ▸ List.mem_map_of_mem Prod.fst hp)

/-! ### C1 and C2 -/

/-- C1: on the payload revenue=1000, growth=[0], ebit_margin=0.2,
tax_rate=0.25, capex_pct=0, nwc_pct=0, wacc=0.10, terminal_growth=0.03,
net_debt=0, shares=100, `run_dcf` computes the single FCFF 150, the
terminal value 150·1.03/0.07, and returns enterprise_value = 2142.86,
equity_value = 2142.86 and fair_value_per_share = 21.43 after rounding to
2 decimal places. -/
theorem run_dcf_point_check :
    fcffLoop (1/5) (1/4) 0 0 1000 [0] = [150]
    ∧ (fcffLoop (1/5) (1/4) 0 0 1000 [0]).getLastD 0 * (1 + 3/100) / (1/10 - 3/100)
        = 150 * (103/100) / (7/100)
    ∧ run_dcf ⟨1000, [0], 1/5, 1/4, 0, 0, 1/10, 3/100, 0, 100⟩
        = some ⟨2142.86, 2142.86, 21.43⟩ := by
  refine ⟨by decide, by decide, by decide⟩

/-- C2: `latest_value` returns 0 on the empty series; when `"TTM"` is a
key of the series (a Python dict, hence distinct keys) it returns the
value at `"TTM"` regardless of that key's position; otherwise it returns
the value of the last period in insertion order. -/
theorem latest_value_spec (row : Series) :
    (row = [] → latest_value row = 0)
    ∧ (∀ v : ℚ, (row.map Prod.fst).Nodup → ("TTM", v) ∈ row → latest_value row = v)
    ∧ ("TTM" ∉ row.map Prod.fst → ∀ p : String × ℚ, row.getLast? = some p →
        latest_value row = p.2) := by
  refine ⟨fun h => by subst h; rfl, fun v hnd hm => ?_, fun hnm p hp => ?_⟩
  · have hl : pyLookup row "TTM" = some v := lookup_of_mem_nodup row "TTM" v hnd hm
    cases row with
    | nil => cases hm
    | cons q t => simp [latest_value, hl]
  · have hl : pyLookup row "TTM" = none := lookup_eq_none_of_not_mem row "TTM" hnm
    cases row with
    | nil => simp at hp
    | cons q t =>
      simp only [latest_value, hl]
      rw [List.getLastD_eq_getLast?, List.getLast?_map, hp]
      rfl

/-- Witness for C2: a series with `"TTM"` in the middle yields the TTM
value, and the empty series yields 0. -/
theorem latest_value_spec_w :
    ((["2022", "TTM", "2023"] : List String).Nodup
      ∧ ("TTM", (5 : ℚ)) ∈ ([("2022", 1), ("TTM", 5), ("2023", 2)] : Series))
    ∧ latest_value [("2022", 1), ("TTM", 5), ("2023", 2)] = 5
    ∧ latest_value [] = 0 := by
  refine ⟨⟨by decide, by decide⟩, ?_, ?_⟩
  · exact (latest_value_spec [("2022", 1), ("TTM", 5), ("2023", 2)]).2.1 5
      (by decide) (by decide)
  · exact (latest_value_spec []).1 rfl

/-! ### C3, C4, C5: extractor robustness -/

/-- C3: `parse_table` returns the empty StatementTable (and in particular
never fails) when the named section is absent, when the section has no
table, when the first table has fewer than 2 rows, or when the header row
has fewer than 2 header cells. -/
theorem parse_table_empty_policy (soup : Document) (section_id : String) :
    (findSection soup section_id = none → parse_table soup section_id = [])
    ∧ (∀ sec, findSection soup section_id = some sec → sec.tables.head? = none →
        parse_table soup section_id = [])
    ∧ (∀ sec t, findSection soup section_id = some sec → sec.tables.head? = some t →
        t.rows.length < 2 → parse_table soup section_id = [])
    ∧ (∀ sec t r0 rest, findSection soup section_id = some sec →
        sec.tables.head? = some t → t.rows = r0 :: rest →
        (r0.cells.filter Cell.isTh).length < 2 → parse_table soup section_id = []) := by
  refine ⟨fun h => by simp [parse_table, h], fun sec h1 h2 => by simp [parse_table, h1, h2],
    fun sec t h1 h2 hlen => ?_, fun sec t r0 rest h1 h2 hrows hth => ?_⟩
  · cases ht : t.rows with
    | nil => simp [parse_table, h1, h2, ht]
    | cons r rs =>
      cases rs with
      | nil => simp [parse_table, h1, h2, ht]
      | cons r1 rs1 => rw [ht] at hlen; exact absurd hlen (by simp)
  · cases rest with
    | nil => simp [parse_table, h1, h2, hrows]
    | cons r1 rs1 =>
      simp only [parse_table, h1, h2, hrows]
      rw [if_pos hth]

/-- Witness for C3: all four degenerate shapes yield the empty table. -/
theorem parse_table_empty_policy_w :
    parse_table ⟨[]⟩ "profit-loss" = []
    ∧ parse_table ⟨[⟨"profit-loss", []⟩]⟩ "profit-loss" = []
    ∧ parse_table ⟨[⟨"profit-loss", [⟨[⟨[]⟩]⟩]⟩]⟩ "profit-loss" = []
    ∧ parse_table ⟨[⟨"profit-loss",
        [⟨[⟨[⟨CellTag.th, "x"⟩]⟩, ⟨[⟨CellTag.td, "Sales"⟩, ⟨CellTag.td, "1"⟩]⟩]⟩]⟩]⟩
        "profit-loss" = [] := by
  refine ⟨(parse_table_empty_policy ⟨[]⟩ "profit-loss").1 (by decide), ?_, ?_, ?_⟩
  · exact (parse_table_empty_policy _ "profit-loss").2.1 ⟨"profit-loss", []⟩
      (by decide) (by decide)
  · exact (parse_table_empty_policy _ "profit-loss").2.2.1 ⟨"profit-loss", [⟨[⟨[]⟩]⟩]⟩
      ⟨[⟨[]⟩]⟩ (by decide) (by decide) (by decide)
  · exact (parse_table_empty_policy _ "profit-loss").2.2.2
      ⟨"profit-loss", [⟨[⟨[⟨CellTag.th, "x"⟩]⟩, ⟨[⟨CellTag.td, "Sales"⟩, ⟨CellTag.td, "1"⟩]⟩]⟩]⟩
      ⟨[⟨[⟨CellTag.th, "x"⟩]⟩, ⟨[⟨CellTag.td, "Sales"⟩, ⟨CellTag.td, "1"⟩]⟩]⟩
      ⟨[⟨CellTag.th, "x"⟩]⟩ [⟨[⟨CellTag.td, "Sales"⟩, ⟨CellTag.td, "1"⟩]⟩]
      (by decide) (by decide) (by decide) (by decide)

/-- C4: each data cell is stripped, has its commas removed, and is parsed
with `pyFloat`; a failed parse contributes 0.0 instead of an error, and a
successful parse contributes the parsed value, so extraction is total on
malformed cell content.  Concrete checks: commas are removed before
parsing, and unparseable or empty text gives 0. -/
theorem parseCell_total_spec (c : Cell) :
    (pyFloat (stripCommas (pyStrip c.text)) = none → parseCell c = 0)
    ∧ (∀ x : ℚ, pyFloat (stripCommas (pyStrip c.text)) = some x → parseCell c = x)
    ∧ parseCell ⟨CellTag.td, " 12,34.5 "⟩ = 1234.5
    ∧ parseCell ⟨CellTag.td, "n/a"⟩ = 0
    ∧ parseCell ⟨CellTag.td, ""⟩ = 0 := by
  refine ⟨fun h => by simp [parseCell, h], fun x h => by simp [parseCell, h],
    by decide, by decide, by decide⟩

/-- Witness for C4: a cell that fails to parse contributes 0, a cell with
a thousands separator parses to the comma-free number. -/
theorem parseCell_total_spec_w :
    (pyFloat (stripCommas (pyStrip "oops")) = none
      ∧ parseCell ⟨CellTag.td, "oops"⟩ = 0)
    ∧ (pyFloat (stripCommas (pyStrip "1,000")) = some 1000
      ∧ parseCell ⟨CellTag.td, "1,000"⟩ = 1000) := by
  refine ⟨⟨by decide, (parseCell_total_spec ⟨CellTag.td, "oops"⟩).1 (by decide)⟩,
    ⟨by decide, (parseCell_total_spec ⟨CellTag.td, "1,000"⟩).2.1 1000 (by decide)⟩⟩

/-- C5: a data row's labels and parsed values are paired positionally by
`zip`, which truncates to the shorter of the two sequences; entry `i` of
the pairing is (label `i`, value `i`), with no out-of-range access. -/
theorem rowEntry_zip_spec (headers : List String) (row : TableRow) (c0 c1 : Cell)
    (cs : List Cell) (hc : row.cells = c0 :: c1 :: cs) :
    rowEntry? headers row
      = some (pyStrip c0.text, pyDict (headers.zip ((c1 :: cs).map parseCell)))
    ∧ (headers.zip ((c1 :: cs).map parseCell)).length
        = min headers.length ((c1 :: cs).map parseCell).length
    ∧ (∀ (i : ℕ) (a : String) (b : ℚ), headers[i]? = some a →
        ((c1 :: cs).map parseCell)[i]? = some b →
        (headers.zip ((c1 :: cs).map parseCell))[i]? = some (a, b)) := by
  refine ⟨by simp [rowEntry?, hc], by simp, fun i a b ha hb => ?_⟩
  exact List.getElem?_zip_eq_some.mpr ⟨ha, hb⟩

/-- Witness for C5: three period labels against two value cells pair up
to length 2, with positional pairing. -/
theorem rowEntry_zip_spec_w :
    rowEntry? ["A", "B", "C"] ⟨[⟨CellTag.td, "L"⟩, ⟨CellTag.td, "1"⟩, ⟨CellTag.td, "2"⟩]⟩
      = some ("L", [("A", 1), ("B", 2)])
    ∧ (["A", "B", "C"].zip (([⟨CellTag.td, "1"⟩, ⟨CellTag.td, "2"⟩] : List Cell).map
        parseCell)).length = 2
    ∧ (["A", "B", "C"].zip (([⟨CellTag.td, "1"⟩, ⟨CellTag.td, "2"⟩] : List Cell).map
        parseCell))[1]? = some ("B", 2) := by
  have h := rowEntry_zip_spec ["A", "B", "C"]
    ⟨[⟨CellTag.td, "L"⟩, ⟨CellTag.td, "1"⟩, ⟨CellTag.td, "2"⟩]⟩
    ⟨CellTag.td, "L"⟩ ⟨CellTag.td, "1"⟩ [⟨CellTag.td, "2"⟩] rfl
  refine ⟨by rw [h.1]; decide, by decide, h.2.2 1 "B" 2 (by decide) (by decide)⟩

/-! ### Dict building lemmas (for the last-wins and dedup policies) -/

theorem find?_map_update {α : Type} (d : List (String × α)) (k : String) (v : α) :
    (d.map (fun p => if p.1 = k then (k, v) else p)).find? (fun p => decide (p.1 = k))
      = (d.find? (fun p => decide (p.1 = k))).map (fun _ => (k, v)) := by
  induction d with
  | nil => rfl
  | cons p t ih =>
    by_cases h : p.1 = k
    · simp [List.find?_cons_of_pos, h]
    · rw [List.map_cons, if_neg h, List.find?_cons_of_neg _ (by simp [h]),
        List.find?_cons_of_neg _ (by simp [h]), ih]

theorem lookup_pyInsert_self {α : Type} (d : List (String × α)) (k : String) (v : α) :
    pyLookup (pyInsert d k v) k = some v := by
  unfold pyInsert
  split
  · next hmem =>
    rw [pyLookup, find?_map_update]
    obtain ⟨p, hp, hk⟩ := List.mem_map.1 hmem
    have : (d.find? (fun p => decide (p.1 = k))).isSome :=
      List.find?_isSome.2 ⟨p, hp, by simp [hk]⟩
    obtain ⟨q, hq⟩ := Option.isSome_iff_exists.1 this
    rw [hq]
    rfl
  · next hmem =>
    have hnone : d.find? (fun p => decide (p.1 = k)) = none :=
      List.find?_eq_none.2 (fun p hp => by
        simp only [decide_eq_true_eq]
        intro he
        exact hmem (he ▸ List.mem_map_of_mem Prod.fst hp))
    rw [pyLookup, List.find?_append, hnone]
    simp [List.find?]

theorem find?_map_update_ne {α : Type} (d : List (String × α)) (k : String) (v : α)
    (k' : String) (h : k' ≠ k) :
    (d.map (fun p => if p.1 = k then (k, v) else p)).find? (fun p => decide (p.1 = k'))
      = d.find? (fun p => decide (p.1 = k')) := by
  induction d with
  | nil => rfl
  | cons p t ih =>
    by_cases hp : p.1 = k
    · rw [List.map_cons, if_pos hp,
        List.find?_cons_of_neg _ (by simp [Ne.symm h]),
        List.find?_cons_of_neg _ (by simp [hp, Ne.symm h]), ih]
    · by_cases hp' : p.1 = k'
      · rw [List.map_cons, if_neg hp, List.find?_cons_of_pos _ (by simp [hp']),
          List.find?_cons_of_pos _ (by simp [hp'])]
      · rw [List.map_cons, if_neg hp, List.find?_cons_of_neg _ (by simp [hp']),
          List.find?_cons_of_neg _ (by simp [hp']), ih]

theorem lookup_pyInsert_ne {α : Type} (d : List (String × α)) (k : String) (v : α)
    (k' : String) (h : k' ≠ k) : pyLookup (pyInsert d k v) k' = pyLookup d k' := by
  unfold pyInsert
  split
  · rw [pyLookup, pyLookup, find?_map_update_ne d k v k' h]
  · rw [pyLookup, List.find?_append]
    have : List.find? (fun p => decide (p.1 = k')) [(k, v)] = none := by
      simp [List.find?, Ne.symm h]
    rw [this]
    simp [pyLookup]

theorem keys_pyInsert {α : Type} (d : List (String × α)) (k : String) (v : α) :
    (pyInsert d k v).map Prod.fst
      = if k ∈ d.map Prod.fst then d.map Prod.fst else d.map Prod.fst ++ [k] := by
  unfold pyInsert
  split
  · rw [List.map_map]
    refine List.map_congr_left (fun p _ => ?_)
    by_cases h : p.1 = k
    · simp [h]
    · simp [h]
  · simp

theorem pyDict_concat {α : Type} (l : List (String × α)) (p : String × α) :
    pyDict (l ++ [p]) = pyInsert (pyDict l) p.1 p.2 := by
  simp [pyDict, List.foldl_append]

theorem keys_pyDict_nodup {α : Type} (l : List (String × α)) :
    ((pyDict l).map Prod.fst).Nodup := by
  induction l using List.reverseRecOn with
  | nil => simp [pyDict]
  | append_singleton l p ih =>
    rw [pyDict_concat, keys_pyInsert]
    split
    · exact ih
    · next hmem => simp [List.Nodup.append, ih, hmem, List.nodup_append]

theorem mem_keys_pyDict {α : Type} (l : List (String × α)) (k : String) :
    k ∈ (pyDict l).map Prod.fst ↔ k ∈ l.map Prod.fst := by
  induction l using List.reverseRecOn with
  | nil => simp [pyDict]
  | append_singleton l p ih =>
    rw [pyDict_concat, keys_pyInsert]
    split
    · next hmem =>
      simp only [List.map_append, List.map_cons, List.map_nil, List.mem_append,
        List.mem_singleton]
      constructor
      · intro h
        exact Or.inl (ih.1 h)
      · rintro (h | h)
        · exact ih.2 h
        · exact h ▸ hmem
    · simp [ih]

theorem keys_pyDict_sublist {α : Type} (l : List (String × α)) :
    List.Sublist ((pyDict l).map Prod.fst) (l.map Prod.fst) := by
  induction l using List.reverseRecOn with
  | nil => simp [pyDict]
  | append_singleton l p ih =>
    rw [pyDict_concat, keys_pyInsert]
    split
    · exact ih.trans (by simp)
    · simpa using List.Sublist.append ih (List.Sublist.refl [p.1])

theorem length_pyDict_le {α : Type} (l : List (String × α)) :
    (pyDict l).length ≤ l.length := by
  have h := (keys_pyDict_sublist l).length_le
  simpa using h

theorem length_pyDict_lt {α : Type} (l : List (String × α))
    (h : ¬ (l.map Prod.fst).Nodup) : (pyDict l).length < l.length := by
  have hs := keys_pyDict_sublist l
  have hle := hs.length_le
  rcases lt_or_eq_of_le hle with hlt | heq
  · simpa using hlt
  · exact absurd (hs.eq_of_length heq ▸ keys_pyDict_nodup l) h

theorem lookup_pyDict_lastWins {α : Type} (l : List (String × α)) (k : String) :
    pyLookup (pyDict l) k
      = ((l.filter (fun p => decide (p.1 = k))).getLast?).map Prod.snd := by
  induction l using List.reverseRecOn with
  | nil => simp [pyDict, pyLookup]
  | append_singleton l p ih =>
    rw [pyDict_concat]
    by_cases h : p.1 = k
    · rw [show p = (k, p.2) from Prod.ext h rfl] at *
      rw [lookup_pyInsert_self, List.filter_append, List.filter_cons,
        if_pos (by simp)]
      simp [List.getLast?_concat]
    · rw [lookup_pyInsert_ne _ _ _ _ (fun he => h he.symm), List.filter_append,
        List.filter_cons, if_neg (by simp [h])]
      simpa using ih

theorem parse_loop_eq_pyDict (headers : List String) (rows : List TableRow)
    (d : StatementTable) :
    rows.foldl (fun data row =>
      match rowEntry? headers row with
      | some kv => pyInsert data kv.1 kv.2
      | none => data) d
    = (rows.filterMap (rowEntry? headers)).foldl (fun data p => pyInsert data p.1 p.2) d := by
  induction rows generalizing d with
  | nil => rfl
  | cons r rs ih =>
    cases h : rowEntry? headers r with
    | none => simp [List.filterMap_cons, h, ih]
    | some kv => simp [List.filterMap_cons, h, ih]

/-! ### C6 and C10: duplicate handling -/

/-- C6: under the shape hypotheses that make `parse_table` reach its row
loop, the resulting StatementTable is the Python dict of the qualifying
row entries: its labels are distinct, a label appears iff some qualifying
row bears it, and the series stored at a label is the one of the last
qualifying row bearing that label (last-wins overwrite). -/
theorem parse_table_last_wins (soup : Document) (section_id : String)
    (sec : HSection) (t : HTable) (r0 : TableRow) (rest : List TableRow)
    (h1 : findSection soup section_id = some sec) (h2 : sec.tables.head? = some t)
    (h3 : t.rows = r0 :: rest)
    (h4 : 2 ≤ (r0.cells.filter Cell.isTh).length) :
    parse_table soup section_id
      = pyDict (rest.filterMap (rowEntry?
          (((r0.cells.filter Cell.isTh).map (fun c => pyStrip c.text)).drop 1)))
    ∧ ((parse_table soup section_id).map Prod.fst).Nodup
    ∧ (∀ k, k ∈ (parse_table soup section_id).map Prod.fst
        ↔ k ∈ (rest.filterMap (rowEntry?
            (((r0.cells.filter Cell.isTh).map (fun c => pyStrip c.text)).drop 1))).map
              Prod.fst)
    ∧ (∀ k, pyLookup (parse_table soup section_id) k
        = (((rest.filterMap (rowEntry?
            (((r0.cells.filter Cell.isTh).map (fun c => pyStrip c.text)).drop 1))).filter
              (fun p => decide (p.1 = k))).getLast?).map Prod.snd) := by
  have hmain : parse_table soup section_id
      = pyDict (rest.filterMap (rowEntry?
          (((r0.cells.filter Cell.isTh).map (fun c => pyStrip c.text)).drop 1))) := by
    cases rest with
    | nil => simp [parse_table, h1, h2, h3, pyDict]
    | cons r1 rs =>
      simp only [parse_table, h1, h2, h3]
      rw [if_neg (by omega)]
      exact parse_loop_eq_pyDict _ _ []
  refine ⟨hmain, ?_, fun k => ?_, fun k => ?_⟩
  · rw [hmain]; exact keys_pyDict_nodup _
  · rw [hmain]; exact mem_keys_pyDict _ k
  · rw [hmain]; exact lookup_pyDict_lastWins _ k

/-- Witness for C6: two data rows with the same label; the stored series
is the one of the second (last) row. -/
theorem parse_table_last_wins_w :
    parse_table ⟨[⟨"profit-loss",
        [⟨[⟨[⟨CellTag.th, "x"⟩, ⟨CellTag.th, "2022"⟩]⟩,
           ⟨[⟨CellTag.td, "Sales"⟩, ⟨CellTag.td, "1"⟩]⟩,
           ⟨[⟨CellTag.td, "Sales"⟩, ⟨CellTag.td, "2"⟩]⟩]⟩]⟩]⟩ "profit-loss"
      = [("Sales", [("2022", 2)])]
    ∧ pyLookup (parse_table ⟨[⟨"profit-loss",
        [⟨[⟨[⟨CellTag.th, "x"⟩, ⟨CellTag.th, "2022"⟩]⟩,
           ⟨[⟨CellTag.td, "Sales"⟩, ⟨CellTag.td, "1"⟩]⟩,
           ⟨[⟨CellTag.td, "Sales"⟩, ⟨CellTag.td, "2"⟩]⟩]⟩]⟩]⟩ "profit-loss") "Sales"
      = some [("2022", 2)] := by
  have h := parse_table_last_wins ⟨[⟨"profit-loss",
      [⟨[⟨[⟨CellTag.th, "x"⟩, ⟨CellTag.th, "2022"⟩]⟩,
         ⟨[⟨CellTag.td, "Sales"⟩, ⟨CellTag.td, "1"⟩]⟩,
         ⟨[⟨CellTag.td, "Sales"⟩, ⟨CellTag.td, "2"⟩]⟩]⟩]⟩]⟩ "profit-loss"
      ⟨"profit-loss",
        [⟨[⟨[⟨CellTag.th, "x"⟩, ⟨CellTag.th, "2022"⟩]⟩,
           ⟨[⟨CellTag.td, "Sales"⟩, ⟨CellTag.td, "1"⟩]⟩,
           ⟨[⟨CellTag.td, "Sales"⟩, ⟨CellTag.td, "2"⟩]⟩]⟩]⟩
      ⟨[⟨[⟨CellTag.th, "x"⟩, ⟨CellTag.th, "2022"⟩]⟩,
         ⟨[⟨CellTag.td, "Sales"⟩, ⟨CellTag.td, "1"⟩]⟩,
         ⟨[⟨CellTag.td, "Sales"⟩, ⟨CellTag.td, "2"⟩]⟩]⟩
      ⟨[⟨CellTag.th, "x"⟩, ⟨CellTag.th, "2022"⟩]⟩
      [⟨[⟨CellTag.td, "Sales"⟩, ⟨CellTag.td, "1"⟩]⟩,
       ⟨[⟨CellTag.td, "Sales"⟩, ⟨CellTag.td, "2"⟩]⟩]
      (by decide) (by decide) (by decide) (by decide)
  refine ⟨?_, ?_⟩
  · rw [h.1]; decide
  · rw [h.2.2.2 "Sales"]; decide

/-- C10: when the zipped (label, value) pairs of a data row carry
duplicate labels, the row's dict-built series keeps one entry per
distinct label, the value stored at a label is the one of the last column
bearing that label, and the series is strictly shorter than the pairing
(hence can have fewer entries than the parsed value cells). -/
theorem dup_header_last_col_spec (headers : List String) (cells : List Cell) :
    ((pyDict (headers.zip (cells.map parseCell))).map Prod.fst).Nodup
    ∧ (∀ k, pyLookup (pyDict (headers.zip (cells.map parseCell))) k
        = (((headers.zip (cells.map parseCell)).filter
            (fun p => decide (p.1 = k))).getLast?).map Prod.snd)
    ∧ (¬ ((headers.zip (cells.map parseCell)).map Prod.fst).Nodup →
        (pyDict (headers.zip (cells.map parseCell))).length
            < (headers.zip (cells.map parseCell)).length
          ∧ (headers.zip (cells.map parseCell)).length ≤ (cells.map parseCell).length)
    ∧ (∀ (row : TableRow) (c0 c1 : Cell) (cs : List Cell),
        row.cells = c0 :: c1 :: cs → cells = c1 :: cs →
        rowEntry? headers row
          = some (pyStrip c0.text, pyDict (headers.zip (cells.map parseCell)))) := by
  refine ⟨keys_pyDict_nodup _, fun k => lookup_pyDict_lastWins _ k,
    fun hdup => ⟨length_pyDict_lt _ hdup, ?_⟩, fun row c0 c1 cs hr hc => ?_⟩
  · rw [List.length_zip]
    exact min_le_right _ _
  · subst hc
    simp [rowEntry?, hr]

/-- Witness for C10: duplicate header label "2022"; the stored value is
the one of the last duplicated column, and the series is shorter than the
two parsed cells. -/
theorem dup_header_last_col_spec_w :
    pyLookup (pyDict (["2022", "2022"].zip
        (([⟨CellTag.td, "1"⟩, ⟨CellTag.td, "2"⟩] : List Cell).map parseCell))) "2022"
      = some 2
    ∧ (pyDict (["2022", "2022"].zip
        (([⟨CellTag.td, "1"⟩, ⟨CellTag.td, "2"⟩] : List Cell).map parseCell))).length
      < (["2022", "2022"].zip
        (([⟨CellTag.td, "1"⟩, ⟨CellTag.td, "2"⟩] : List Cell).map parseCell)).length := by
  have h := dup_header_last_col_spec ["2022", "2022"] [⟨CellTag.td, "1"⟩, ⟨CellTag.td, "2"⟩]
  refine ⟨?_, (h.2.2.1 (by decide)).1⟩
  rw [h.2.1 "2022"]
  decide

/-! ### C7 and C8: input derivation -/

theorem lastVal_eq_getLast (s : Series) (hnd : (s.map Prod.fst).Nodup)
    (hne : s ≠ []) : lastVal s = (s.map Prod.snd).getLastD 0 := by
  obtain ⟨p, hp⟩ := Option.isSome_iff_exists.1 (List.getLast?_isSome.2 hne)
  have hkey : (s.map Prod.fst).getLastD "" = p.1 := by
    rw [List.getLastD_eq_getLast?, List.getLast?_map, hp]; rfl
  have hm : (p.1, p.2) ∈ s := by rw [Prod.mk.eta]; exact List.mem_of_getLast?_eq_some hp
  rw [lastVal, hkey, lookup_of_mem_nodup s p.1 p.2 hnd hm,
    List.getLastD_eq_getLast?, List.getLast?_map, hp]
  rfl

theorem prevVal_eq_getPrev (s : Series) (hnd : (s.map Prod.fst).Nodup)
    (h2 : 2 ≤ s.length) : prevVal s = ((s.map Prod.snd).dropLast).getLastD 0 := by
  have hne : s.dropLast ≠ [] := by
    have : s.dropLast.length = s.length - 1 := List.length_dropLast s
    intro h
    rw [h] at this
    simp at this
    omega
  obtain ⟨q, hq⟩ := Option.isSome_iff_exists.1 (List.getLast?_isSome.2 hne)
  have hkey : ((s.map Prod.fst).dropLast).getLastD "" = q.1 := by
    rw [← List.map_dropLast, List.getLastD_eq_getLast?, List.getLast?_map, hq]; rfl
  have hm : (q.1, q.2) ∈ s := by
    rw [Prod.mk.eta]
    exact (List.dropLast_sublist s).subset (List.mem_of_getLast?_eq_some hq)
  rw [prevVal, hkey, lookup_of_mem_nodup s q.1 q.2 hnd hm,
    ← List.map_dropLast, List.getLastD_eq_getLast?, List.getLast?_map, hq]
  rfl

/-- C7: the tax rate is `(pbt - pat) / pbt` when pre-tax profit is
positive and the fixed fallback 0.25 otherwise, with the result rounded
to 4 decimal places (the fallback is invariant under that rounding). -/
theorem tax_rate_spec (pl bs cf : StatementTable) :
    (0 < latest_value (dictGetD pl "Profit before tax") →
      (build_dcf_inputs pl bs cf).tax_rate
        = round4 ((latest_value (dictGetD pl "Profit before tax")
            - latest_value (dictGetD pl "Net Profit +"))
            / latest_value (dictGetD pl "Profit before tax")))
    ∧ (latest_value (dictGetD pl "Profit before tax") ≤ 0 →
      (build_dcf_inputs pl bs cf).tax_rate = 1 / 4) := by
  constructor
  · intro h
    simp only [build_dcf_inputs]
    rw [if_pos h]
  · intro h
    simp only [build_dcf_inputs]
    rw [if_neg (not_lt.2 h)]
    decide

/-- Witness for C7: pbt = 100, pat = 80 gives tax rate 0.2; empty tables
give pbt = 0 and the 0.25 fallback. -/
theorem tax_rate_spec_w :
    ((0 : ℚ) < latest_value (dictGetD
        [("Profit before tax", [("2023", 100)]), ("Net Profit +", [("2023", 80)])]
        "Profit before tax")
      ∧ (build_dcf_inputs
          [("Profit before tax", [("2023", 100)]), ("Net Profit +", [("2023", 80)])]
          [] []).tax_rate = 1 / 5)
    ∧ (build_dcf_inputs [] [] []).tax_rate = 1 / 4 := by
  refine ⟨⟨by decide, ?_⟩, (tax_rate_spec [] [] []).2 (by decide)⟩
  rw [(tax_rate_spec
      [("Profit before tax", [("2023", 100)]), ("Net Profit +", [("2023", 80)])]
      [] []).1 (by decide)]
  decide

/-- C8: with at least 2 periods of "Fixed Assets +", capex is the last
period's value minus the second-to-last period's value plus depreciation;
with fewer than 2 periods capex is depreciation alone; `capex_pct` is
capex over revenue for nonzero revenue and 0 for zero revenue; and
`build_dcf_inputs` reports it rounded to 4 decimal places. -/
theorem capex_spec (pl bs cf : StatementTable) :
    (2 ≤ (dictGetD bs "Fixed Assets +").length →
      capexOf bs (latest_value (dictGetD pl "Depreciation"))
        = lastVal (dictGetD bs "Fixed Assets +")
          - prevVal (dictGetD bs "Fixed Assets +")
          + latest_value (dictGetD pl "Depreciation"))
    ∧ ((dictGetD bs "Fixed Assets +").length < 2 →
      capexOf bs (latest_value (dictGetD pl "Depreciation"))
        = latest_value (dictGetD pl "Depreciation"))
    ∧ (2 ≤ (dictGetD bs "Fixed Assets +").length →
        ((dictGetD bs "Fixed Assets +").map Prod.fst).Nodup →
      lastVal (dictGetD bs "Fixed Assets +")
          = ((dictGetD bs "Fixed Assets +").map Prod.snd).getLastD 0
        ∧ prevVal (dictGetD bs "Fixed Assets +")
          = (((dictGetD bs "Fixed Assets +").map Prod.snd).dropLast).getLastD 0)
    ∧ (∀ dep revenue : ℚ, revenue ≠ 0 →
        capexPctOf bs dep revenue = capexOf bs dep / revenue)
    ∧ (∀ dep : ℚ, capexPctOf bs dep 0 = 0)
    ∧ (build_dcf_inputs pl bs cf).capex_pct
        = round4 (capexPctOf bs (latest_value (dictGetD pl "Depreciation"))
            (latest_value (dictGetD pl "Sales +"))) := by
  refine ⟨fun h => ?_, fun h => ?_, fun h hnd => ?_, fun dep revenue h => ?_,
    fun dep => ?_, rfl⟩
  · rw [capexOf, if_pos h]
  · rw [capexOf, if_neg (by omega)]
  · have hne : dictGetD bs "Fixed Assets +" ≠ [] := by
      intro he
      rw [he] at h
      simp at h
    exact ⟨lastVal_eq_getLast _ hnd hne, prevVal_eq_getPrev _ hnd h⟩
  · rw [capexPctOf, if_pos h]
  · rw [capexPctOf, if_neg (by simp)]

/-- Witness for C8: a two-period fixed-asset series gives
capex = 80 − 50 + 10 = 40 and capex_pct = 40/100; a one-period series
gives capex = depreciation = 10. -/
theorem capex_spec_w :
    capexOf [("Fixed Assets +", [("2022", 50), ("2023", 80)])] 10 = 40
    ∧ capexOf [("Fixed Assets +", [("2023", 80)])] 10 = 10
    ∧ capexPctOf [("Fixed Assets +", [("2022", 50), ("2023", 80)])] 10 100 = 2 / 5
    ∧ (build_dcf_inputs
        [("Sales +", [("2023", 100)]), ("Depreciation", [("2023", 10)])]
        [("Fixed Assets +", [("2022", 50), ("2023", 80)])] []).capex_pct = 2 / 5 := by
  have h := capex_spec [("Sales +", [("2023", 100)]), ("Depreciation", [("2023", 10)])]
    [("Fixed Assets +", [("2022", 50), ("2023", 80)])] []
  have h1 := capex_spec [("Sales +", [("2023", 100)]), ("Depreciation", [("2023", 10)])]
    [("Fixed Assets +", [("2023", 80)])] []
  refine ⟨?_, ?_, ?_, ?_⟩
  · have := h.1 (by decide)
    simp only [dictGetD, pyLookup] at this ⊢
    rw [show latest_value (((([("Sales +", ([("2023", 100)] : Series)),
        ("Depreciation", [("2023", 10)])] : StatementTable).find?
          (fun p => decide (p.1 = "Depreciation"))).map Prod.snd).getD [])
        = (10 : ℚ) by decide] at this
    rw [this]
    decide
  · have := h1.2.1 (by decide)
    simp only [dictGetD, pyLookup] at this ⊢
    rw [show latest_value (((([("Sales +", ([("2023", 100)] : Series)),
        ("Depreciation", [("2023", 10)])] : StatementTable).find?
          (fun p => decide (p.1 = "Depreciation"))).map Prod.snd).getD [])
        = (10 : ℚ) by decide] at this
    rw [this]
  · have := h.2.2.2.1 10 100 (by decide)
    rw [this]
    decide
  · rw [h.2.2.2.2.2]
    decide

/-! ### C9: growth-path monotonicity of enterprise value -/

theorem fcffLoop_append (em tax cp np rev : ℚ) (xs ys : List ℚ) :
    fcffLoop em tax cp np rev (xs ++ ys)
      = fcffLoop em tax cp np rev xs ++ fcffLoop em tax cp np (revAfter rev xs) ys := by
  induction xs generalizing rev with
  | nil => simp [fcffLoop, revAfter]
  | cons g gs ih => simp [fcffLoop, revAfter, ih, List.foldl_cons]

theorem fcffLoop_scale (em tax cp np c rev : ℚ) (gs : List ℚ) :
    fcffLoop em tax cp np (c * rev) gs
      = (fcffLoop em tax cp np rev gs).map (fun f => c * f) := by
  induction gs generalizing rev with
  | nil => simp [fcffLoop]
  | cons g t ih =>
    simp only [fcffLoop, List.map_cons]
    congr 1
    · ring
    · rw [mul_assoc]
      exact ih (rev * (1 + g))

theorem fcffLoop_pos (em tax cp np rev : ℚ) (gs : List ℚ)
    (hrev : 0 < rev) (hgs : ∀ g ∈ gs, 0 < 1 + g)
    (hm : 0 < em * (1 - tax) - cp - np) :
    ∀ f ∈ fcffLoop em tax cp np rev gs, 0 < f := by
  induction gs generalizing rev with
  | nil => simp [fcffLoop]
  | cons g t ih =>
    intro f hf
    have hg : 0 < 1 + g := hgs g (List.mem_cons_self g t)
    have hrev1 : 0 < rev * (1 + g) := mul_pos hrev hg
    rcases List.mem_cons.1 hf with h | h
    · subst h
      have : rev * (1 + g) * em * (1 - tax) - rev * (1 + g) * cp - rev * (1 + g) * np
          = rev * (1 + g) * (em * (1 - tax) - cp - np) := by ring
      rw [this]
      exact mul_pos hrev1 hm
    · exact ih (rev * (1 + g)) hrev1 (fun x hx => hgs x (List.mem_cons_of_mem g hx)) f h

theorem revAfter_pos (rev : ℚ) (xs : List ℚ) (hrev : 0 < rev)
    (hxs : ∀ g ∈ xs, 0 < 1 + g) : 0 < revAfter rev xs := by
  induction xs generalizing rev with
  | nil => exact hrev
  | cons g t ih =>
    rw [revAfter, List.foldl_cons]
    exact ih (rev * (1 + g))
      (mul_pos hrev (hxs g (List.mem_cons_self g t)))
      (fun x hx => hxs x (List.mem_cons_of_mem g hx))

theorem dsumFrom_append (w : ℚ) (i : ℕ) (xs ys : List ℚ) :
    dsumFrom w i (xs ++ ys) = dsumFrom w i xs + dsumFrom w (i + xs.length) ys := by
  induction xs generalizing i with
  | nil => simp [dsumFrom]
  | cons f t ih =>
    simp only [List.cons_append, dsumFrom, List.length_cons, List.append_eq]
    rw [ih (i + 1), show i + 1 + t.length = i + (t.length + 1) from by omega]
    ring

theorem dsumFrom_map_mul (w c : ℚ) (i : ℕ) (xs : List ℚ) :
    dsumFrom w i (xs.map (fun f => c * f)) = c * dsumFrom w i xs := by
  induction xs generalizing i with
  | nil => simp [dsumFrom]
  | cons f t ih =>
    simp only [List.map_cons, dsumFrom, ih (i + 1)]
    ring

theorem dsumFrom_nonneg (w : ℚ) (i : ℕ) (xs : List ℚ) (hw : 0 < 1 + w)
    (hxs : ∀ f ∈ xs, 0 ≤ f) : 0 ≤ dsumFrom w i xs := by
  induction xs generalizing i with
  | nil => simp [dsumFrom]
  | cons f t ih =>
    have h1 : 0 ≤ f / (1 + w) ^ (i + 1) :=
      div_nonneg (hxs f (List.mem_cons_self f t)) (le_of_lt (pow_pos hw (i + 1)))
    have h2 : 0 ≤ dsumFrom w (i + 1) t :=
      ih (i + 1) (fun x hx => hxs x (List.mem_cons_of_mem f hx))
    rw [dsumFrom]
    linarith

theorem dsumFrom_pos (w : ℚ) (i : ℕ) (xs : List ℚ) (hw : 0 < 1 + w)
    (hxs : ∀ f ∈ xs, 0 < f) (hne : xs ≠ []) : 0 < dsumFrom w i xs := by
  cases xs with
  | nil => exact absurd rfl hne
  | cons f t =>
    have h1 : 0 < f / (1 + w) ^ (i + 1) :=
      div_pos (hxs f (List.mem_cons_self f t)) (pow_pos hw (i + 1))
    have h2 : 0 ≤ dsumFrom w (i + 1) t :=
      dsumFrom_nonneg w (i + 1) t hw
        (fun x hx => le_of_lt (hxs x (List.mem_cons_of_mem f hx)))
    rw [dsumFrom]
    linarith

theorem getLastD_append_of_ne_nil (xs ys : List ℚ) (d : ℚ) (h : ys ≠ []) :
    (xs ++ ys).getLastD d = ys.getLastD d := by
  rw [List.getLastD_eq_getLast?, List.getLastD_eq_getLast?,
    List.getLast?_append_of_ne_nil xs h]

theorem getLastD_map_mul (c : ℚ) (xs : List ℚ) (h : xs ≠ []) :
    (xs.map (fun f => c * f)).getLastD 0 = c * xs.getLastD 0 := by
  obtain ⟨p, hp⟩ := Option.isSome_iff_exists.1 (List.getLast?_isSome.2 h)
  rw [List.getLastD_eq_getLast?, List.getLastD_eq_getLast?, List.getLast?_map, hp]
  rfl

theorem getLastD_mem (xs : List ℚ) (d : ℚ) (h : xs ≠ []) : xs.getLastD d ∈ xs := by
  obtain ⟨p, hp⟩ := Option.isSome_iff_exists.1 (List.getLast?_isSome.2 h)
  rw [List.getLastD_eq_getLast?, hp]
  exact List.mem_of_getLast?_eq_some hp

/-- C9 (amended): under the claim's preconditions, strictly increasing a
single growth-path entry strictly increases the unrounded enterprise
value computed by `run_dcf` (the value of the `ev` variable before the
final 2-decimal rounding). -/
theorem ev_raw_strict_mono (em tax cp np rev w tg nd sh : ℚ)
    (pre suf : List ℚ) (g g' : ℚ)
    (hw : tg < w) (hrev : 0 < rev) (htg : 0 < 1 + tg)
    (hm : 0 < em * (1 - tax) - cp - np)
    (hgs : ∀ x ∈ pre ++ g :: suf, 0 < 1 + x)
    (hg : g < g') :
    ev_raw ⟨rev, pre ++ g :: suf, em, tax, cp, np, w, tg, nd, sh⟩
      < ev_raw ⟨rev, pre ++ g' :: suf, em, tax, cp, np, w, tg, nd, sh⟩ := by
  have h1g : 0 < 1 + g := hgs g (by simp)
  have h1g' : 0 < 1 + g' := by linarith
  have hw1 : 0 < 1 + w := by linarith
  have hpre : ∀ x ∈ pre, 0 < 1 + x := fun x hx => hgs x (by simp [hx])
  have hsuf : ∀ x ∈ g :: suf, 0 < 1 + x := fun x hx => hgs x (by simp [hx])
  have hR : 0 < revAfter rev pre := revAfter_pos rev pre hrev hpre
  set R := revAfter rev pre with hRdef
  set c : ℚ := (1 + g') / (1 + g) with hcdef
  have hc : 1 < c := (one_lt_div h1g).2 (by linarith)
  set A := fcffLoop em tax cp np rev pre with hAdef
  set T := fcffLoop em tax cp np R (g :: suf) with hTdef
  have hTne : T ≠ [] := by rw [hTdef, fcffLoop]; exact List.cons_ne_nil _ _
  have hTpos : ∀ f ∈ T, 0 < f := fcffLoop_pos em tax cp np R (g :: suf) hR hsuf hm
  have hRg : R * (1 + g') = c * (R * (1 + g)) := by
    rw [hcdef]
    field_simp
    ring
  have hT' : fcffLoop em tax cp np R (g' :: suf) = T.map (fun f => c * f) := by
    rw [hTdef]
    simp only [fcffLoop, List.map_cons]
    congr 1
    · rw [hRg]; ring
    · rw [hRg, fcffLoop_scale]
  have hsplit : fcffLoop em tax cp np rev (pre ++ g :: suf) = A ++ T :=
    fcffLoop_append em tax cp np rev pre (g :: suf)
  have hsplit' : fcffLoop em tax cp np rev (pre ++ g' :: suf)
      = A ++ T.map (fun f => c * f) := by
    rw [fcffLoop_append em tax cp np rev pre (g' :: suf), hT']
  have hMne : T.map (fun f => c * f) ≠ [] := by
    simpa using hTne
  simp only [ev_raw, hsplit, hsplit']
  rw [dsumFrom_append, dsumFrom_append, dsumFrom_map_mul,
    getLastD_append_of_ne_nil A T 0 hTne,
    getLastD_append_of_ne_nil A (T.map (fun f => c * f)) 0 hMne,
    getLastD_map_mul c T hTne]
  simp only [List.length_append, List.length_map, zero_add]
  have hD : 0 < dsumFrom w A.length T := dsumFrom_pos w A.length T hw1 hTpos hTne
  have hL : 0 < T.getLastD 0 := hTpos _ (getLastD_mem T 0 hTne)
  have hterm : 0 < T.getLastD 0 * (1 + tg) / (w - tg) / (1 + w) ^ (A.length + T.length) :=
    div_pos (div_pos (mul_pos hL htg) (by linarith)) (pow_pos hw1 _)
  have hQ : c * T.getLastD 0 * (1 + tg) / (w - tg) / (1 + w) ^ (A.length + T.length)
      = c * (T.getLastD 0 * (1 + tg) / (w - tg) / (1 + w) ^ (A.length + T.length)) := by
    ring
  rw [hQ]
  nlinarith [mul_pos (sub_pos.2 hc) hD, mul_pos (sub_pos.2 hc) hterm]

/-- Witness for C9 (amended): raising the sole growth rate from 0 to 0.1
strictly raises the unrounded enterprise value. -/
theorem ev_raw_strict_mono_w :
    ev_raw ⟨1000, [0], 1/5, 1/4, 0, 0, 1/10, 3/100, 0, 100⟩
      < ev_raw ⟨1000, [1/10], 1/5, 1/4, 0, 0, 1/10, 3/100, 0, 100⟩ :=
  ev_raw_strict_mono (1/5) (1/4) 0 0 1000 (1/10) (3/100) 0 100 [] [] 0 (1/10)
    (by norm_num) (by norm_num) (by norm_num) (by norm_num)
    (by intro x hx; simp at hx; subst hx; norm_num) (by norm_num)

/-- Counterexample to C9 as stated: the enterprise value `run_dcf`
returns is rounded to 2 decimals, so a strict increase of a growth rate
(0 to 1e-9, all preconditions holding) can leave the returned
enterprise value unchanged. -/
theorem ev_rounded_not_strict_mono :
    (3/100 : ℚ) < 1/10 ∧ (0 : ℚ) < 1000
    ∧ (∀ x ∈ ([0] : List ℚ), 0 < 1 + x) ∧ (0 : ℚ) < 1 + 3/100
    ∧ (0 : ℚ) < 1/5 * (1 - 1/4) - 0 - 0
    ∧ (0 : ℚ) < 1/1000000000
    ∧ (run_dcf ⟨1000, [0], 1/5, 1/4, 0, 0, 1/10, 3/100, 0, 100⟩).map
        DCFResult.enterprise_value = some 2142.86
    ∧ (run_dcf ⟨1000, [1/1000000000], 1/5, 1/4, 0, 0, 1/10, 3/100, 0, 100⟩).map
        DCFResult.enterprise_value = some 2142.86 := by
  refine ⟨by norm_num, by norm_num, by decide, by norm_num, by norm_num, by norm_num,
    by decide, by decide⟩

end DcfTool
